import Mathlib

/-!
Shallow embedding of the Patterns repository (a small client-side UI toolkit:
a configurable table widget in src/js/table/table.js, a prototypal-inheritance
helper in src/js/inherit.js, and a type-check helper in src/js/typecheck.js).

JavaScript values are modelled by an inductive `JSValue`; plain data records
(the row objects fed to the table) are association lists from property names
to values, with JS property read/write semantics.  DOM structure is modelled
only to the extent the verified properties observe it (row lists, CSS-class
flags, appended clones); the jQuery layer is modelled by its observable
contract (matched element sets, truthiness of wrapper objects).
-/

namespace Patterns

/-- A JavaScript primitive value as used by the table widget's data records. -/
inductive JSValue where
  | vStr (s : String)
  | vNum (n : Int)
  | vBool (b : Bool)
  | vUndefined
deriving DecidableEq, Repr

open JSValue

/-- JavaScript truthiness of a primitive value: `undefined`, `false`, `0` and
the empty string are falsy, everything else is truthy. -/
def jsTruthy : JSValue → Bool
  | vStr s => !s.isEmpty
  | vNum n => n != 0
  | vBool b => b
  | vUndefined => false

/-- A data record (a plain JS object): an association list from property names
to values.  Property writes overwrite the first binding in place or append. -/
abbrev JSRec := List (String × JSValue)

/-- JS property read `r[k]`: the first binding for `k`, or `undefined`. -/
def recGet (r : JSRec) (k : String) : JSValue :=
  match r.find? (fun p => p.1 == k) with
  | some p => p.2
  | none => vUndefined

/-- JS property write `r[k] = v`: overwrite the first binding for `k`, or
append a new binding when the key is absent. -/
def recSet : JSRec → String → JSValue → JSRec
  | [], k, v => [(k, v)]
  | (k0, v0) :: rest, k, v =>
    if k0 = k then (k, v) :: rest else (k0, v0) :: recSet rest k v

/-- Decimal digit run parser used to model `Number(string)` on integer
literals: `none` when the run is empty or contains a non-digit (NaN). -/
def parseDigits (cs : List Char) : Option Nat :=
  if cs = [] then none
  else
    cs.foldl
      (fun acc c =>
        match acc with
        | some n => if c.isDigit then some (n * 10 + (c.toNat - '0'.toNat)) else none
        | none => none)
      (some 0)

/-- Leading and trailing whitespace removal, as `Number(string)` trims its
input before conversion. -/
def trimChars (cs : List Char) : List Char :=
  ((cs.dropWhile Char.isWhitespace).reverse.dropWhile Char.isWhitespace).reverse

/-- The string-to-number fragment of JS `Number(string)` exercised by the
widget: optional whitespace, optional minus sign, decimal digits; the empty
string converts to 0; anything else (such as "abc") is NaN, modelled as
`none`.  (Fractional, exponent and hex literals are not used by the sources
or the verified properties and are not modelled.) -/
def jsStringToNumber (s : String) : Option Int :=
  let t := trimChars s.data
  match t with
  | [] => some 0
  | '-' :: rest => (parseDigits rest).map (fun n => -(n : Int))
  | _ => (parseDigits t).map (fun n => (n : Int))

/-- JS `Number(v)` on the value forms the widget stores; `none` models NaN. -/
def jsToNumber : JSValue → Option Int
  | vNum n => some n
  | vBool b => some (if b then 1 else 0)
  | vStr s => jsStringToNumber s
  | vUndefined => none

/-- `Number( x ) || 0` as used by `Table.numberSort`: a NaN conversion result
falls through to 0 (and a 0 result stays 0). -/
def numberOr0 (v : JSValue) : Int := (jsToNumber v).getD 0

/-- JS `String(v)` on the value forms the widget stores. -/
def jsToString : JSValue → String
  | vStr s => s
  | vNum n => toString n
  | vBool b => if b then "true" else "false"
  | vUndefined => "undefined"

/-- `Table.numberSort`: compares two records on a column by coercing each
value with `Number`, any non-coercing value counting as 0. -/
def numberSort (column : String) (a b : JSRec) : Int :=
  numberOr0 (recGet a column) - numberOr0 (recGet b column)

/-- `Table.stringSort`: lexicographic compare of the string coercions. -/
def stringSort (column : String) (a b : JSRec) : Int :=
  let aData := jsToString (recGet a column)
  let bData := jsToString (recGet b column)
  if aData < bData then -1 else if bData < aData then 1 else 0

/-- `Table.caseInsensitiveSort`: `stringSort` after lower-casing both sides. -/
def caseInsensitiveSort (column : String) (a b : JSRec) : Int :=
  let aData := (jsToString (recGet a column)).toLower
  let bData := (jsToString (recGet b column)).toLower
  if aData < bData then -1 else if bData < aData then 1 else 0

/-- `Table.booleanSort`: `Boolean(b[column]) - Boolean(a[column])`, so a
truthy value sorts before a falsy one. -/
def booleanSort (column : String) (a b : JSRec) : Int :=
  (if jsTruthy (recGet b column) then (1 : Int) else 0)
    - (if jsTruthy (recGet a column) then (1 : Int) else 0)

/-- `Table.reverseSort`: wraps a comparator, swapping its two data records. -/
def reverseSort (sortFunc : String → JSRec → JSRec → Int) :
    String → JSRec → JSRec → Int :=
  fun column a b => sortFunc column b a

/-- `Table.rowIDColumn`, the reserved synthetic row-id property name. -/
def rowIDColumn : String := "_table_rowID"

/-- `INSERT_BATCH_LIMIT`, the row-build batch size of `_insertData`. -/
def INSERT_BATCH_LIMIT : Nat := 500

/-!
Row entries and data loading (`_setData`, `Table.prototype.setData`).

A rendered row element is modelled by the record it was built from: the
verified properties observe which rows are present (and in what order), not
the cell markup inside them.
-/

/-- One entry of `this._data`: the caller record shallow-copied and augmented
with the synthetic row-id, plus the lazily materialized row element (`null`
until the row is built by `_insertData`). -/
structure RowEntry where
  data : JSRec
  row : Option JSRec
deriving DecidableEq, Repr

/-- The loop body of `_setData`: for the record at 0-based index `i`, push
an entry whose record is a shallow copy of the caller's record with
`Table.rowIDColumn` set to `i + 1`, and whose row element is `null`. -/
def setDataLoop : List JSRec → Nat → List RowEntry
  | [], _ => []
  | r :: rest, i =>
    { data := recSet r rowIDColumn (vNum ((i : Int) + 1)), row := none }
      :: setDataLoop rest (i + 1)

/-- `_setData`: replaces `this._data` with freshly numbered entries (the loop
starts at index 0, so row-ids restart at 1 on every call). -/
def setDataEntries (data : List JSRec) : List RowEntry :=
  setDataLoop data 0

/-!
Heap model of `_setData` for the frame property of `Table.prototype.setData`:
records live in a heap (addresses are list indices) and the caller passes a
list of record addresses.  `$.extend( \x7b\x7d, data[ i ] )` allocates a fresh
copy; the row-id write then mutates only the copy.
-/

/-- A heap of JS record objects; an address is an index into the list. -/
abbrev RecHeap := List JSRec

/-- Heap read: the record at an address (a dangling address reads as an empty
record; the widget never dereferences one). -/
def heapRead (h : RecHeap) (a : Nat) : JSRec := h.getD a []

/-- The loop body of `_setData` in the heap model: each iteration allocates a
fresh shallow copy of the caller's record, writes the row-id into the copy,
and records the copy's address as the entry's record.  Returns the final heap
and the addresses of the entries' records. -/
def setDataHeapLoop : RecHeap → List Nat → Nat → RecHeap × List Nat
  | h, [], _ => (h, [])
  | h, a :: rest, i =>
    let copy := recSet (heapRead h a) rowIDColumn (vNum ((i : Int) + 1))
    let result := setDataHeapLoop (h ++ [copy]) rest (i + 1)
    (result.1, h.length :: result.2)

/-- `Table.prototype.setData` in the heap model: `[].concat( data )` copies
the caller's array of references (not the records), then `_setData` runs. -/
def setDataHeap (h : RecHeap) (refs : List Nat) : RecHeap × List Nat :=
  setDataHeapLoop h ([] ++ refs) 0

/-!
`Table.prototype.setElement` (src/js/table/table.js lines 523-528).

`$( element )` wraps the resolved element set in a collection object; the
source then tests `if( !this._element )`.  A JS object is always truthy
regardless of how many elements it matched, so the embedding records both the
matched set and the (constant) truthiness of the wrapper.
-/

/-- The jQuery-style wrapper returned by the selector call: the list of
matched DOM nodes (possibly empty). -/
structure JQueryObj where
  matched : List Nat
deriving DecidableEq, Repr

/-- JS truthiness of the selector-library wrapper: it is an object, and every
JS object is truthy — even when its matched set is empty. -/
def jqTruthy : JQueryObj → Bool := fun _ => true

/-- `Table.prototype.setElement`: stores `$( element )` and throws
`"Bad target element: " + element` when the stored wrapper is falsy.  The
resolver argument models the selector lookup of the host document. -/
def setElement (resolve : String → List Nat) (element : String) :
    Except String JQueryObj :=
  let el := JQueryObj.mk (resolve element)
  if !(jqTruthy el) then
    Except.error ("Bad target element: " ++ element)
  else
    Except.ok el

/-!
The `inherit` helper (src/js/inherit.js).

Prototype members are modelled by `Member`; a function member carries the
source text that `_callsSuper.test( dervFunc )` would inspect, and the
wrapper produced by `_superCaller` is a distinguished constructor recording
the base and derived members it closes over.
-/

/-- A prototype member: a function (with its source text), the `_superCaller`
wrapper around a base and a derived member, or a plain value. -/
inductive Member where
  | fn (src : String)
  | wrapped (base derived : Member)
  | val (v : JSValue)
deriving DecidableEq, Repr

/-- A prototype object: an association list from member names to members. -/
abbrev ProtoObj := List (String × Member)

/-- JS member read `p[name]`: first binding or `undefined`. -/
def protoGet (p : ProtoObj) (name : String) : Member :=
  match p.find? (fun q => q.1 == name) with
  | some q => q.2
  | none => Member.val vUndefined

/-- `_superCaller( base, derived )`: builds the wrapper that would bind
`this._super` to `base` around each invocation of `derived`. -/
def _superCaller (base derived : Member) : Member :=
  Member.wrapped base derived

/-- `_overriding( name, supr, derv )` as the source executes: the function
body places its conjunction on the line after `return`, so JavaScript's
automatic semicolon insertion makes the function return `undefined` and the
conjunction below it is dead code.  The embedding therefore returns
`undefined` for every input. -/
def _overriding (_name : String) (_supr _derv : ProtoObj) : JSValue :=
  vUndefined

/-- Does the character list start with the given needle? -/
def charsStartWith : List Char → List Char → Bool
  | [], _ => true
  | _ :: _, [] => false
  | n :: ns, h :: hs => n == h && charsStartWith ns hs

/-- Does the character list contain the needle as a contiguous run? -/
def charsContain : List Char → List Char → Bool
  | [], needle => charsStartWith needle []
  | c :: hs, needle => charsStartWith needle (c :: hs) || charsContain hs needle

/-- Word-boundary test of the `/\b_super\b/` regex against a function's
source text, approximated as a substring test (the concrete sources the
development evaluates contain `_super` only with non-word neighbours).  In
the combined condition of `inherit` this value sits to the right of a
short-circuiting `&&` whose left operand is always falsy. -/
def callsSuperTest (src : String) : Bool :=
  charsContain src.data "_super".data

/-- Source text of a member as `_callsSuper.test` would coerce it. -/
def memberSrc : Member → String
  | Member.fn src => src
  | Member.wrapped _ d => memberSrc d
  | Member.val v => jsToString v

/-- The member-assignment step of `inherit`'s loop over the derived
prototype: `if( _overriding( name, supr, derv ) && _callsSuper.test( dervFunc ) )`
installs `_superCaller( supr[ name ], dervFunc )`, otherwise the derived
member is installed unchanged.  JS `&&` short-circuits on the falsy
`undefined` returned by `_overriding`. -/
def inheritAssign (supr derv : ProtoObj) (name : String) (dervMember : Member) :
    Member :=
  if jsTruthy (_overriding name supr derv) && callsSuperTest (memberSrc dervMember)
  then _superCaller (protoGet supr name) dervMember
  else dervMember

/-- The prototype produced by `inherit`'s member loop: every member of the
derived prototype is installed through `inheritAssign`. -/
def inheritProto (supr derv : ProtoObj) : ProtoObj :=
  derv.map (fun p => (p.1, inheritAssign supr derv p.1 p.2))

/-!
Incremental rendering (`_insertData`, src/js/table/table.js lines 420-452).

Each invocation of `_insertData` builds (or re-attaches) up to
`INSERT_BATCH_LIMIT` rows, appends them to the body `tbody`, appends a clone
of the first row of the batch to the header table's `tbody`, and — when rows
remain — schedules the next invocation as a zero-delay deferred task.  The
embedding accumulates the appended body rows, the appended header clones and
the size of every executed batch; the deferred `setTimeout` chain becomes
direct recursion on the not-yet-processed suffix of `this._data`.
-/

/-- Materialize a row entry as `_insertData`'s loop does: when `datum.row` is
`null` the row element is built from the entry's record (cell markup is not
observed by the verified properties), otherwise the cached element is kept
(it is detached and re-appended). -/
def materializeEntry (e : RowEntry) : RowEntry :=
  match e.row with
  | none => { e with row := some e.data }
  | some _ => e

/-- The row element of a materialized entry (its backing record). -/
def entryRow (e : RowEntry) : JSRec :=
  (materializeEntry e).row.getD []

/-- Accumulated render output: the processed entries in order, the rows
appended to the body `tbody`, the clones appended to the header `tbody`, and
the number of rows each executed batch processed. -/
structure RenderAcc where
  entries : List RowEntry
  bodyRows : List JSRec
  headerClones : List JSRec
  batchSizes : List Nat
deriving DecidableEq, Repr

/-- The empty accumulator of a fresh `_updateTable` pass. -/
def emptyRenderAcc : RenderAcc := ⟨[], [], [], []⟩

/-- The batch body of `_insertData` on a non-empty unprocessed suffix
`e :: rest` of `this._data`: the loop builds (or re-attaches) the first
`min INSERT_BATCH_LIMIT (e :: rest).length` rows and appends them to the body
`tbody`, then one clone of the batch's first row is appended to the header
table's `tbody`.  The executed batch size is recorded. -/
def insertBatch (acc : RenderAcc) (e : RowEntry) (rest : List RowEntry) :
    RenderAcc :=
  let k := min INSERT_BATCH_LIMIT (e :: rest).length
  let batch := ((e :: rest).take k).map materializeEntry
  { entries := acc.entries ++ batch
    bodyRows := acc.bodyRows ++ batch.map entryRow
    headerClones := acc.headerClones ++ [entryRow e]
    batchSizes := acc.batchSizes ++ [k] }

/-- `_insertData` on the unprocessed suffix of `this._data`: one call runs
`insertBatch` and recurses on the remaining suffix exactly when the source
would schedule another deferred task (`start + i < this._data.length`).
Call sites guarantee the suffix is non-empty; on an empty suffix the source's
loop body and clone line would not be reached and the accumulator is returned
unchanged. -/
def insertData : RenderAcc → List RowEntry → RenderAcc
  | acc, [] => acc
  | acc, e :: rest =>
    if h : (e :: rest).length ≤ min INSERT_BATCH_LIMIT (e :: rest).length then
      insertBatch acc e rest
    else
      insertData (insertBatch acc e rest)
        ((e :: rest).drop (min INSERT_BATCH_LIMIT (e :: rest).length))
termination_by _ rest => rest.length
decreasing_by
  simp only [INSERT_BATCH_LIMIT, List.length_drop, List.length_cons] at h ⊢
  omega

/-- The data-insertion part of `_updateTable`: `_insertData` runs (from
index 0) only when `this._data` is non-empty. -/
def renderAll (entries : List RowEntry) : RenderAcc :=
  if entries.isEmpty then emptyRenderAcc else insertData emptyRenderAcc entries

/-- The batch partition of `N` rows: batches of `INSERT_BATCH_LIMIT` rows
until fewer remain, then one final short batch. -/
def batchPartition (n : Nat) : List Nat :=
  if h : n = 0 then []
  else min INSERT_BATCH_LIMIT n :: batchPartition (n - min INSERT_BATCH_LIMIT n)
termination_by n
decreasing_by
  have : 0 < min INSERT_BATCH_LIMIT n := by
    simp only [INSERT_BATCH_LIMIT]
    omega
  omega

/-!
Sorting (`Table.prototype.sortOnColumn`, src/js/table/table.js lines
590-615).

The direction test reads whether the target header cell currently carries the
`ascending-sort` class.  Every call runs `_updateTable`, which rebuilds the
header row from the template (clearing all sort classes), and then re-adds
the direction class on the target cell only; hence at most one column carries
`ascending-sort` at any time and the class state is an `Option String`.

`this._data.sort( ... )` is the host's in-place array sort; since ES2019 the
host sort is required to be stable, so it is modelled by a stable merge sort
whose order predicate accepts a pair exactly when the comparator reports
less-or-equal-to-zero on it.
-/

/-- The table state `sortOnColumn` operates on: the data entries and the
column (if any) whose header cell carries the `ascending-sort` class. -/
structure SortState where
  entries : List RowEntry
  ascendingCol : Option String
deriving DecidableEq, Repr

/-- The state of a freshly built table: no header carries a sort class. -/
def initialSortState (entries : List RowEntry) : SortState :=
  ⟨entries, none⟩

/-- The order predicate the host's stable sort realizes for a JS comparator:
`a` may precede `b` exactly when the comparator does not require `b` first. -/
def sortLe (sortMode : String → JSRec → JSRec → Int) (column : String)
    (a b : RowEntry) : Bool :=
  sortMode column a.data b.data ≤ 0

/-- `Table.prototype.sortOnColumn`: reverse the comparator when the header
already carries `ascending-sort`, stable-sort `this._data` in place comparing
the entries' records, rebuild the table (which clears all sort classes), and
re-add the toggled direction class on the target header cell. -/
def sortOnColumn (column : String) (sortMode : String → JSRec → JSRec → Int)
    (st : SortState) : SortState :=
  let descend := st.ascendingCol = some column
  let effective := if descend then reverseSort sortMode else sortMode
  { entries := st.entries.mergeSort (sortLe effective column)
    ascendingCol := if descend then none else some column }

/-!
Row event handling (`_onRowEvent`, src/js/table/table.js lines 481-496).

The body rows are modelled by their bound record and their `selected` class
flag; the clicked row is identified by its index among the body rows.  The
early return fires when the event target is neither a `td` nor a `tr`
(clicks landing on generated inner elements), modelled by a flag computed
from the real event target.  A callback invocation records the arguments the
caller receives — the row's bound record, the clicked row's index (standing
for the row element), and the `selected` flag the row element carries at
invocation time, which exhibits that selection is updated before the
callback runs.
-/

/-- A rendered body row as the click path observes it. -/
structure DomRow where
  datum : JSRec
  selected : Bool
deriving DecidableEq, Repr

/-- `this._element.find( 'tr.selected' ).removeClass( 'selected' )`: clears
the flag on every row. -/
def clearSelection (rows : List DomRow) : List DomRow :=
  rows.map (fun r => { r with selected := false })

/-- `$row.addClass( 'selected' )` on the row at the clicked index. -/
def selectRow : List DomRow → Nat → List DomRow
  | [], _ => []
  | r :: rest, 0 => { r with selected := true } :: rest
  | r :: rest, n + 1 => r :: selectRow rest n

/-- One recorded callback invocation: (row record, clicked row index, the
clicked row's `selected` flag at invocation time). -/
structure RowCallbackCall where
  datum : JSRec
  rowIndex : Nat
  rowSelectedAtCall : Bool
deriving DecidableEq, Repr

/-- `_onRowEvent`: bail out unless the target is a `td` or `tr`; on a
`click`, clear every row's selection and mark the clicked row; then, when a
callback is registered for the event, invoke it with the row's record and
row element.  Returns the updated rows and the recorded invocations. -/
def onRowEvent (eventName : String) (targetIsCellOrRow : Bool)
    (hasCallback : Bool) (rows : List DomRow) (clicked : Nat) :
    List DomRow × List RowCallbackCall :=
  if !targetIsCellOrRow then (rows, [])
  else
    let rows2 :=
      if eventName = "click" then selectRow (clearSelection rows) clicked
      else rows
    let calls :=
      if hasCallback then
        [⟨(rows2.getD clicked ⟨[], false⟩).datum, clicked,
          (rows2.getD clicked ⟨[], false⟩).selected⟩]
      else []
    (rows2, calls)

/-!
Options processing (`Table.prototype.setOpts`, src/js/table/table.js lines
533-551, with `_setHeaders`, `_setCallbacks`, `_mergeConfig`).

Function-valued configuration entries (cell generators, filters, sort modes)
are represented by their source names as string values: the verified
properties never invoke them, only track which object carries which keys.
-/

/-- `$.extend`-style merge of two association objects: every binding of
`src` is written into `target` (overwriting in place or appending). -/
def extendRec (target src : JSRec) : JSRec :=
  src.foldl (fun acc p => recSet acc p.1 p.2) target

/-- `DEFAULT_COLUMN_CONFIG`: default generator, filter and sort of a column
definition (function values represented by their names). -/
def DEFAULT_COLUMN_CONFIG : JSRec :=
  [("generator", vStr "Table.textCell()"),
   ("filter", vStr "String"),
   ("sort", vStr "Table.caseInsensitiveSort")]

/-- `_setHeaders`'s per-column step: `$.extend( \x7b\x7d,
DEFAULT_COLUMN_CONFIG, headers[ i ] )`. -/
def applyHeaderDefaults (headers : List JSRec) : List JSRec :=
  headers.map (fun h => extendRec DEFAULT_COLUMN_CONFIG h)

/-- The caller's options bundle: the three specially processed keys (each
`none` when the key is absent) and the remaining generic config keys. -/
structure TableOpts where
  headers : Option (List JSRec)
  callbacks : Option JSRec
  data : Option (List JSRec)
  config : JSRec
deriving DecidableEq, Repr

/-- The widget state `setOpts` operates on. -/
structure TableState where
  headers : List JSRec
  callbacks : JSRec
  entries : List RowEntry
  config : JSRec
deriving DecidableEq, Repr

/-- `Table.prototype.setData`: `_setData` on `[].concat( data )` (a fresh
array holding the caller's record references), followed by a full rebuild;
the rebuilt rendering is derived from the entries and not stored. -/
def tableSetData (st : TableState) (data : List JSRec) : TableState :=
  { st with entries := setDataEntries ([] ++ data) }

/-- `Table.prototype.setOpts`: apply and then delete `headers`, `callbacks`
and `data` from the passed bundle (in that order), deep-merge the remaining
generic keys into the live configuration, and rebuild.  Returns the updated
state together with the caller's bundle as the calls mutated it; the rebuilt
rendering is derived from the state (`renderAll`) and not stored. -/
def setOpts (st : TableState) (opts : TableOpts) : TableState × TableOpts :=
  let step1 : TableState × TableOpts :=
    match opts.headers with
    | some hs => ({ st with headers := applyHeaderDefaults hs },
                  { opts with headers := none })
    | none => (st, opts)
  let step2 : TableState × TableOpts :=
    match step1.2.callbacks with
    | some cbs => ({ step1.1 with callbacks := extendRec step1.1.callbacks cbs },
                   { step1.2 with callbacks := none })
    | none => step1
  let step3 : TableState × TableOpts :=
    match step2.2.data with
    | some d => ({ step2.1 with entries := setDataEntries d },
                 { step2.2 with data := none })
    | none => step2
  ({ step3.1 with config := extendRec step3.1.config step3.2.config }, step3.2)

/-!
Concrete fixtures used by closed theorems and witnesses.
-/

/-- Record holding the string "abc" (coerces to NaN, counted as 0). -/
def recAbc : JSRec := [("v", vStr "abc")]

/-- Record holding the string "2". -/
def recTwo : JSRec := [("v", vStr "2")]

/-- Record holding the string "10". -/
def recTen : JSRec := [("v", vStr "10")]

/-- A base prototype whose member `foo` is callable. -/
def inheritDemoBase : ProtoObj :=
  [("foo", Member.fn "function()\x7b return 1; \x7d")]

/-- A derived prototype whose member `foo` is callable and whose source text
references the up-call binding `this._super`. -/
def inheritDemoDerived : ProtoObj :=
  [("foo", Member.fn "function()\x7b return this._super() + 1; \x7d")]

/-- `n` distinct data rows for render-size experiments. -/
def demoEntries (n : Nat) : List RowEntry :=
  (List.range n).map
    (fun i => { data := [("x", vNum (Int.ofNat i))], row := none })

/-!
Claim theorems, C1 through C10, with their supporting lemmas.
-/

/-- Claim C1 (evaluation of the code at the failing input): `setElement`
never signals an error — even on a target whose resolution yields no
element the stored selector wrapper is an object, every object is truthy,
and the `if( !this._element ) throw` guard can never fire.  The first
conjunct evaluates the failing input (a selector matching nothing); the
second shows the guard is unreachable for every resolver and target. -/
theorem setElement_never_signals_error :
    setElement (fun _ => []) "#missing" = Except.ok (JQueryObj.mk [])
    ∧ ∀ (resolve : String → List Nat) (element : String),
        setElement resolve element = Except.ok (JQueryObj.mk (resolve element)) := by
  refine ⟨rfl, ?_⟩
  intro resolve element
  rfl

/-- Claim C2 (evaluation of the code at the failing input): on a base and a
derived prototype that share the callable member `foo`, whose derived source
text references `_super`, `inherit`'s member loop installs the derived member
unchanged — never the `_superCaller` wrapper — because `_overriding` returns
`undefined` (its result expression sits on the line after `return`, so
automatic semicolon insertion discards it) and the wrap condition
short-circuits on that falsy value.  The final conjunct shows no input
whatsoever produces a wrapped member. -/
theorem inherit_never_wraps_overriding_members :
    callsSuperTest (memberSrc (protoGet inheritDemoDerived "foo")) = true
    ∧ protoGet inheritDemoBase "foo"
        = Member.fn "function()\x7b return 1; \x7d"
    ∧ protoGet inheritDemoDerived "foo"
        = Member.fn "function()\x7b return this._super() + 1; \x7d"
    ∧ inheritProto inheritDemoBase inheritDemoDerived = inheritDemoDerived
    ∧ ∀ supr derv : ProtoObj, inheritProto supr derv = derv := by
  refine ⟨by decide, by decide, by decide, ?_, ?_⟩
  · simp [inheritProto, inheritAssign, _overriding, jsTruthy]
  · intro supr derv
    simp [inheritProto, inheritAssign, _overriding, jsTruthy]

/-- Claim C7: `numberSort` compares records through `Number` coercion with
non-coercing values counted as 0; on the values "10", "2" and "abc" it
orders "abc" (0) before "2" (2) before "10" (10), and the host's stable sort
under it arranges the three rows in exactly that sequence. -/
theorem numberSort_coerces_with_nan_as_zero :
    (∀ (column : String) (a b : JSRec),
        numberSort column a b
          = numberOr0 (recGet a column) - numberOr0 (recGet b column))
    ∧ numberOr0 (vStr "abc") = 0
    ∧ numberOr0 (vStr "2") = 2
    ∧ numberOr0 (vStr "10") = 10
    ∧ numberSort "v" recAbc recTwo < 0
    ∧ numberSort "v" recTwo recTen < 0
    ∧ numberSort "v" recAbc recTen < 0
    ∧ [recTen, recTwo, recAbc].mergeSort (fun a b => numberSort "v" a b ≤ 0)
        = [recAbc, recTwo, recTen] := by
  refine ⟨fun column a b => rfl, by decide, by decide, by decide,
          by decide, by decide, by decide, ?_⟩
  have h1 : numberSort "v" recTen recTwo = 8 := by decide
  have h2 : numberSort "v" recTwo recTen = -8 := by decide
  have h3 : numberSort "v" recTen recAbc = 10 := by decide
  have h4 : numberSort "v" recAbc recTen = -10 := by decide
  have h5 : numberSort "v" recTwo recAbc = 2 := by decide
  have h6 : numberSort "v" recAbc recTwo = -2 := by decide
  simp [List.mergeSort, List.splitInTwo, List.merge, h1, h2, h3, h4, h5, h6]

theorem batchPartition_zero : batchPartition 0 = [] := by
  rw [batchPartition]
  simp

theorem batchPartition_pos (n : Nat) (h : n ≠ 0) :
    batchPartition n
      = min INSERT_BATCH_LIMIT n :: batchPartition (n - min INSERT_BATCH_LIMIT n) := by
  rw [batchPartition]
  simp [h]

theorem batchPartition_sub_lt (n : Nat) (h : n ≠ 0) :
    n - min INSERT_BATCH_LIMIT n < n := by
  simp only [INSERT_BATCH_LIMIT]
  omega

theorem batchPartition_length (n : Nat) :
    (batchPartition n).length = (n + 499) / 500 := by
  induction n using Nat.strong_induction_on with
  | _ n ih =>
    by_cases h : n = 0
    · subst h; simp [batchPartition_zero]
    · rw [batchPartition_pos n h]
      simp only [List.length_cons]
      rw [ih (n - min INSERT_BATCH_LIMIT n) (batchPartition_sub_lt n h)]
      simp only [INSERT_BATCH_LIMIT]
      omega

theorem batchPartition_sum (n : Nat) : (batchPartition n).sum = n := by
  induction n using Nat.strong_induction_on with
  | _ n ih =>
    by_cases h : n = 0
    · subst h; simp [batchPartition_zero]
    · rw [batchPartition_pos n h]
      simp only [List.sum_cons]
      rw [ih (n - min INSERT_BATCH_LIMIT n) (batchPartition_sub_lt n h)]
      simp only [INSERT_BATCH_LIMIT]
      omega

theorem batchPartition_bounds (n : Nat) :
    (batchPartition n).all (fun b => decide (0 < b) && decide (b ≤ 500)) = true := by
  induction n using Nat.strong_induction_on with
  | _ n ih =>
    by_cases h : n = 0
    · subst h; simp [batchPartition_zero]
    · rw [batchPartition_pos n h]
      simp only [List.all_cons, Bool.and_eq_true]
      refine ⟨?_, ih (n - min INSERT_BATCH_LIMIT n) (batchPartition_sub_lt n h)⟩
      simp only [Bool.and_eq_true, decide_eq_true_eq, INSERT_BATCH_LIMIT]
      omega

theorem insertBatch_fields (acc : RenderAcc) (e : RowEntry) (rest : List RowEntry) :
    (insertBatch acc e rest).batchSizes
        = acc.batchSizes ++ [min INSERT_BATCH_LIMIT (rest.length + 1)]
    ∧ (insertBatch acc e rest).bodyRows.length
        = acc.bodyRows.length + min INSERT_BATCH_LIMIT (rest.length + 1)
    ∧ (insertBatch acc e rest).headerClones.length
        = acc.headerClones.length + 1 := by
  refine ⟨rfl, ?_, by simp [insertBatch]⟩
  simp only [insertBatch, List.length_append, List.length_map, List.length_take,
    List.length_cons, INSERT_BATCH_LIMIT]
  omega

theorem insertData_spec (acc : RenderAcc) (rest : List RowEntry) :
    (insertData acc rest).batchSizes = acc.batchSizes ++ batchPartition rest.length
    ∧ (insertData acc rest).bodyRows.length = acc.bodyRows.length + rest.length
    ∧ (insertData acc rest).headerClones.length
        = acc.headerClones.length + (batchPartition rest.length).length := by
  induction acc, rest using insertData.induct with
  | case1 acc => simp [insertData, batchPartition_zero]
  | case2 acc e rest h =>
    rw [insertData, dif_pos h]
    obtain ⟨h1, h2, h3⟩ := insertBatch_fields acc e rest
    rw [h1, h2, h3, batchPartition_pos (e :: rest).length (by simp)]
    simp only [List.length_cons, INSERT_BATCH_LIMIT] at h ⊢
    have hk : min 500 (rest.length + 1) = rest.length + 1 := by omega
    rw [hk]
    simp [batchPartition_zero]
  | case3 acc e rest h ih =>
    obtain ⟨ih1, ih2, ih3⟩ := ih
    obtain ⟨h1, h2, h3⟩ := insertBatch_fields acc e rest
    have hlen : ((e :: rest).drop (min INSERT_BATCH_LIMIT (e :: rest).length)).length
        = (e :: rest).length - min INSERT_BATCH_LIMIT (e :: rest).length := by
      simp
    rw [insertData, dif_neg h]
    refine ⟨?_, ?_, ?_⟩
    · rw [ih1, h1, hlen, batchPartition_pos (e :: rest).length (by simp)]
      simp [List.append_assoc]
    · rw [ih2, h2, hlen]
      simp only [List.length_cons, INSERT_BATCH_LIMIT] at h ⊢
      omega
    · rw [ih3, h3, hlen, batchPartition_pos (e :: rest).length (by simp)]
      simp only [List.length_cons]
      omega

theorem renderAll_spec (entries : List RowEntry) :
    (renderAll entries).batchSizes = batchPartition entries.length
    ∧ (renderAll entries).bodyRows.length = entries.length
    ∧ (renderAll entries).headerClones.length
        = (batchPartition entries.length).length := by
  by_cases h : entries.isEmpty = true
  · have he : entries = [] := by
      cases entries with
      | nil => rfl
      | cons a t => simp [List.isEmpty] at h
    subst he
    simp [renderAll, emptyRenderAcc, batchPartition_zero]
  · rw [renderAll, if_neg h]
    have := insertData_spec emptyRenderAcc entries
    simpa [emptyRenderAcc] using this

theorem demoEntries_length (n : Nat) : (demoEntries n).length = n := by
  rw [demoEntries, List.length_map, List.length_range]

/-- Claim C5: a full render partitions `N` data rows into `ceil(N/500)`
batches, each of at most 500 rows (and at least one), the rendered body ends
up with exactly `N` rows, and a render of 1200 rows runs exactly the batches
500, 500, 200. -/
theorem insertData_partitions_rows_into_batches :
    (∀ entries : List RowEntry,
        (renderAll entries).batchSizes.length = (entries.length + 499) / 500
        ∧ (renderAll entries).batchSizes.all
            (fun b => decide (0 < b) && decide (b ≤ 500)) = true
        ∧ (renderAll entries).bodyRows.length = entries.length)
    ∧ (renderAll (demoEntries 1200)).batchSizes = [500, 500, 200]
    ∧ (renderAll (demoEntries 1200)).bodyRows.length = 1200 := by
  have h1200 : batchPartition 1200 = [500, 500, 200] := by
    rw [batchPartition_pos 1200 (by norm_num)]
    norm_num [INSERT_BATCH_LIMIT]
    rw [batchPartition_pos 700 (by norm_num)]
    norm_num [INSERT_BATCH_LIMIT]
    rw [batchPartition_pos 200 (by norm_num)]
    norm_num [INSERT_BATCH_LIMIT]
    exact batchPartition_zero
  refine ⟨fun entries => ?_, ?_, ?_⟩
  · obtain ⟨hb, hr, _⟩ := renderAll_spec entries
    refine ⟨?_, ?_, hr⟩
    · rw [hb, batchPartition_length]
    · rw [hb]; exact batchPartition_bounds entries.length
  · rw [(renderAll_spec (demoEntries 1200)).1, demoEntries_length, h1200]
  · rw [(renderAll_spec (demoEntries 1200)).2.1, demoEntries_length]

/-- Claim C4 (evaluation of the code at the failing input): the header-clone
append of `_insertData` runs once per batch, not once per render — a full
render of 501 rows leaves 2 cloned body rows in the header table, and in
general a render of `N` rows leaves `ceil(N/500)` of them, contradicting the
stated "exactly one representative cloned body row" as soon as more than one
batch runs. -/
theorem insertData_appends_header_clone_per_batch :
    (renderAll (demoEntries 501)).headerClones.length = 2
    ∧ ∀ entries : List RowEntry,
        (renderAll entries).headerClones.length = (entries.length + 499) / 500 := by
  constructor
  · rw [(renderAll_spec (demoEntries 501)).2.2, demoEntries_length,
      batchPartition_length]
  · intro entries
    rw [(renderAll_spec entries).2.2, batchPartition_length]

theorem recGet_recSet (r : JSRec) (k : String) (v : JSValue) :
    recGet (recSet r k v) k = v := by
  induction r with
  | nil => simp [recGet, recSet]
  | cons p rest ih =>
    obtain ⟨k0, v0⟩ := p
    by_cases h : k0 = k
    · simp [recSet, h, recGet]
    · simpa [recSet, h, recGet] using ih

theorem setDataLoop_ids (data : List JSRec) (i : Nat) :
    (setDataLoop data i).map (fun e => recGet e.data rowIDColumn)
      = (List.range' (i + 1) data.length).map (fun n : Nat => vNum (n : Int)) := by
  induction data generalizing i with
  | nil => simp [setDataLoop]
  | cons r rest ih =>
    simp only [setDataLoop, List.map_cons, List.length_cons, List.range'_succ]
    rw [recGet_recSet, ih (i + 1)]
    norm_cast

/-- Claim C6: loading data assigns every entry's record the synthetic row-id
`Table.rowIDColumn` equal to its 1-based position in the supplied array
(`[1, …, N]` in order), and the numbering depends only on the supplied array
— every `setData` call restarts it at 1 no matter what the previous state
held. -/
theorem setData_assigns_one_based_row_ids (st : TableState) (data : List JSRec) :
    (tableSetData st data).entries.map (fun e => recGet e.data rowIDColumn)
      = (List.range' 1 data.length).map (fun n : Nat => vNum (n : Int))
    ∧ (tableSetData st data).entries.length = data.length
    ∧ ∀ previous : TableState,
        (tableSetData st data).entries = (tableSetData previous data).entries := by
  refine ⟨?_, ?_, fun previous => rfl⟩
  · have h := setDataLoop_ids data 0
    simpa [tableSetData, setDataEntries] using h
  · have h := congrArg List.length (setDataLoop_ids data 0)
    simpa [tableSetData, setDataEntries] using h

theorem clearSelection_countP (rows : List DomRow) :
    (clearSelection rows).countP (fun r => r.selected) = 0 := by
  induction rows with
  | nil => rfl
  | cons r rest ih => simp [clearSelection, List.countP_cons, ih]

theorem clicked_selection (rows : List DomRow) (i : Nat) (hi : i < rows.length) :
    (selectRow (clearSelection rows) i).countP (fun r => r.selected) = 1
    ∧ (selectRow (clearSelection rows) i).getD i ⟨[], false⟩
        = ⟨(rows.getD i ⟨[], false⟩).datum, true⟩ := by
  induction rows generalizing i with
  | nil => simp at hi
  | cons r rest ih =>
    cases i with
    | zero =>
      constructor
      · have hc := clearSelection_countP rest
        simp only [clearSelection, List.map_cons, selectRow, List.countP_cons] at hc ⊢
        simp [hc]
      · simp [clearSelection, selectRow]
    | succ n =>
      have hlt : n < rest.length := by simpa using hi
      obtain ⟨h1, h2⟩ := ih n hlt
      constructor
      · simp [clearSelection, selectRow, List.countP_cons] at h1 ⊢
        exact h1
      · simp [clearSelection, selectRow, List.getD_cons_succ] at h2 ⊢
        exact h2

/-- Claim C8: handling a click on a body row (the event target being a cell
or a row) leaves exactly one row carrying the selected marker — the clicked
one — and the registered click callback (when present) is invoked exactly
once, with the row's record and a row element that already carries the
selected marker at invocation time; with no registered callback nothing is
invoked. -/
theorem rowClick_selects_only_clicked_row_then_invokes (rows : List DomRow)
    (clicked : Nat) (hasCallback : Bool) (h : clicked < rows.length) :
    ((onRowEvent "click" true hasCallback rows clicked).1.countP
        (fun r => r.selected) = 1)
    ∧ ((onRowEvent "click" true hasCallback rows clicked).1.getD clicked ⟨[], false⟩
        = ⟨(rows.getD clicked ⟨[], false⟩).datum, true⟩)
    ∧ ((onRowEvent "click" true hasCallback rows clicked).2
        = if hasCallback then
            [⟨(rows.getD clicked ⟨[], false⟩).datum, clicked, true⟩]
          else []) := by
  obtain ⟨h1, h2⟩ := clicked_selection rows clicked h
  simp only [List.getD, List.get?_eq_getElem?] at h2
  refine ⟨?_, ?_, ?_⟩ <;> simp [onRowEvent, h1, h2]

/-- Two body rows, the first currently selected. -/
def demoRowsC8 : List DomRow :=
  [⟨[("a", vNum 1)], true⟩, ⟨[("b", vNum 2)], false⟩]

/-- Witness for claim C8: clicking the second row of a two-row table whose
first row was selected. -/
theorem rowClick_selects_only_clicked_row_then_invokes_witness :
    ((onRowEvent "click" true true demoRowsC8 1).1.countP
        (fun r => r.selected) = 1)
    ∧ ((onRowEvent "click" true true demoRowsC8 1).1.getD 1 ⟨[], false⟩
        = ⟨(demoRowsC8.getD 1 ⟨[], false⟩).datum, true⟩)
    ∧ ((onRowEvent "click" true true demoRowsC8 1).2
        = if true then
            [⟨(demoRowsC8.getD 1 ⟨[], false⟩).datum, 1, true⟩]
          else []) :=
  rowClick_selects_only_clicked_row_then_invokes demoRowsC8 1 true (by decide)

/-- Claim C9: `setOpts` consumes the special keys of the caller's bundle —
whichever of `headers`, `callbacks` and `data` were present are applied to
the widget and deleted from the bundle, while the generic config keys stay;
consequently a second `setOpts` call with the same (now mutated) bundle
leaves headers, callbacks and data of the widget unchanged and only the
remaining generic config keys take effect. -/
theorem setOpts_consumes_special_keys (st : TableState) (opts : TableOpts) :
    ((setOpts st opts).2.headers = none)
    ∧ ((setOpts st opts).2.callbacks = none)
    ∧ ((setOpts st opts).2.data = none)
    ∧ ((setOpts st opts).2.config = opts.config)
    ∧ ((setOpts st opts).1.headers
        = match opts.headers with
          | some hs => applyHeaderDefaults hs
          | none => st.headers)
    ∧ ((setOpts st opts).1.callbacks
        = match opts.callbacks with
          | some cbs => extendRec st.callbacks cbs
          | none => st.callbacks)
    ∧ ((setOpts st opts).1.entries
        = match opts.data with
          | some d => setDataEntries d
          | none => st.entries)
    ∧ ((setOpts (setOpts st opts).1 (setOpts st opts).2).1.headers
        = (setOpts st opts).1.headers)
    ∧ ((setOpts (setOpts st opts).1 (setOpts st opts).2).1.callbacks
        = (setOpts st opts).1.callbacks)
    ∧ ((setOpts (setOpts st opts).1 (setOpts st opts).2).1.entries
        = (setOpts st opts).1.entries) := by
  obtain ⟨oh, oc, od, ocfg⟩ := opts
  cases oh <;> cases oc <;> cases od <;> simp [setOpts]

theorem setDataHeapLoop_prefix (refs : List Nat) :
    ∀ (h : RecHeap) (i : Nat), h <+: (setDataHeapLoop h refs i).1 := by
  induction refs with
  | nil => intro h i; exact List.prefix_refl h
  | cons a rest ih =>
    intro h i
    simp only [setDataHeapLoop]
    exact List.IsPrefix.trans (List.prefix_append h _) (ih _ (i + 1))

theorem heapRead_of_prefix (h l : RecHeap) (hp : h <+: l) (a : Nat)
    (ha : a < h.length) : heapRead l a = heapRead h a := by
  obtain ⟨t, rfl⟩ := hp
  simp only [heapRead, List.getD, List.get?_eq_getElem?]
  rw [List.getElem?_append_left ha]

/-- Claim C10: loading data never mutates the caller's records — every
record cell that existed in the heap before the `setData` call is still
there, unchanged, afterwards (the loop only allocates fresh shallow copies
and writes the row-id into those), so no original record acquires the
row-id key and no top-level field of an original record changes. -/
theorem setData_never_mutates_caller_records (h : RecHeap) (refs : List Nat) :
    h <+: (setDataHeap h refs).1
    ∧ ∀ a : Nat, a < h.length →
        heapRead (setDataHeap h refs).1 a = heapRead h a := by
  have hp : h <+: (setDataHeap h refs).1 := by
    rw [setDataHeap]
    exact setDataHeapLoop_prefix ([] ++ refs) h 0
  exact ⟨hp, fun a ha => heapRead_of_prefix h _ hp a ha⟩

/-- Witness for claim C10: a one-record heap and a one-reference load; the
original record at address 0 is untouched. -/
theorem setData_never_mutates_caller_records_witness :
    [[("name", vStr "Ada")]] <+: (setDataHeap [[("name", vStr "Ada")]] [0]).1
    ∧ heapRead (setDataHeap [[("name", vStr "Ada")]] [0]).1 0
        = heapRead [[("name", vStr "Ada")]] 0 :=
  ⟨(setData_never_mutates_caller_records [[("name", vStr "Ada")]] [0]).1,
   (setData_never_mutates_caller_records [[("name", vStr "Ada")]] [0]).2 0
     (by decide)⟩

theorem cons_eq_append_of_all_eq {α : Type} {a : α} :
    ∀ {u : List α}, (∀ x ∈ u, x = a) → a :: u = u ++ [a] := by
  intro u
  induction u with
  | nil => intro _; rfl
  | cons b u ih =>
    intro hall
    have hb : b = a := hall b (List.mem_cons_self b u)
    have hu := ih (fun x hx => hall x (List.mem_cons_of_mem b hx))
    rw [hb, List.cons_append, ← hu]

theorem pairwise_perm_eq {α : Type} {r : α → α → Prop} :
    ∀ {l₁ l₂ : List α}, l₁.Perm l₂ → l₁.Pairwise r → l₂.Pairwise r →
      (∀ a ∈ l₁, ∀ b ∈ l₁, r a b → r b a → a = b) → l₁ = l₂ := by
  intro l₁
  induction l₁ with
  | nil => intro l₂ hp _ _ _; exact hp.nil_eq
  | cons a t ih =>
    intro l₂ hp hs₁ hs₂ hanti
    have ha : a ∈ l₂ := hp.subset (List.mem_cons_self a t)
    obtain ⟨u₂, v₂, rfl⟩ := List.append_of_mem ha
    have hp' : t.Perm (u₂ ++ v₂) := (List.perm_cons a).mp (hp.trans List.perm_middle)
    obtain ⟨h₁, ht₁⟩ := List.pairwise_cons.mp hs₁
    have hsub : List.Sublist (u₂ ++ v₂) (u₂ ++ a :: v₂) :=
      (List.sublist_cons_self a v₂).append_left u₂
    have hanti' : ∀ x ∈ t, ∀ y ∈ t, r x y → r y x → x = y :=
      fun x hx y hy => hanti x (List.mem_cons_of_mem a hx) y (List.mem_cons_of_mem a hy)
    have ht : t = u₂ ++ v₂ := ih hp' ht₁ (hs₂.sublist hsub) hanti'
    subst ht
    have hxa : ∀ x ∈ u₂, x = a := by
      intro x hx
      have hxt : x ∈ a :: (u₂ ++ v₂) :=
        List.mem_cons_of_mem a (List.mem_append_left v₂ hx)
      have hra : r x a :=
        (List.pairwise_append.mp hs₂).2.2 x hx a (List.mem_cons_self a v₂)
      have har : r a x := h₁ x (List.mem_append_left v₂ hx)
      exact hanti x hxt a (List.mem_cons_self a (u₂ ++ v₂)) hra har
    have hu : a :: u₂ = u₂ ++ [a] := cons_eq_append_of_all_eq hxa
    calc a :: (u₂ ++ v₂) = (a :: u₂) ++ v₂ := by rw [List.cons_append]
      _ = (u₂ ++ [a]) ++ v₂ := by rw [hu]
      _ = u₂ ++ a :: v₂ := by rw [List.append_assoc, List.singleton_append]

theorem sortOnColumn_entries (column : String)
    (cmp : String → JSRec → JSRec → Int) (st : SortState) :
    (sortOnColumn column cmp st).entries
      = st.entries.mergeSort
          (sortLe (if st.ascendingCol = some column then reverseSort cmp else cmp)
            column) := rfl

theorem sortOnColumn_ascendingCol (column : String)
    (cmp : String → JSRec → JSRec → Int) (st : SortState) :
    (sortOnColumn column cmp st).ascendingCol
      = if st.ascendingCol = some column then none else some column := rfl

/-- Claim C3 as amended: on a freshly built table, sorting a column twice
with a comparator that is transitive and total, and ties no two distinct
loaded rows, first yields an ascending arrangement per the comparator and
then the exact reverse of that arrangement.  (The no-ties hypothesis is
necessary: the host's sort is stable, so rows the comparator ties keep their
current order in the second pass instead of swapping — see the
counterexample.) -/
theorem sortOnColumn_twice_reverses (cmp : String → JSRec → JSRec → Int)
    (column : String) (entries : List RowEntry)
    (htrans : ∀ a b c : RowEntry,
        cmp column a.data b.data ≤ 0 → cmp column b.data c.data ≤ 0 →
        cmp column a.data c.data ≤ 0)
    (htot : ∀ a b : RowEntry,
        cmp column a.data b.data ≤ 0 ∨ cmp column b.data a.data ≤ 0)
    (hanti : ∀ a ∈ entries, ∀ b ∈ entries,
        cmp column a.data b.data ≤ 0 → cmp column b.data a.data ≤ 0 → a = b) :
    ((sortOnColumn column cmp (initialSortState entries)).entries.Pairwise
        (fun a b => cmp column a.data b.data ≤ 0))
    ∧ (sortOnColumn column cmp (sortOnColumn column cmp
          (initialSortState entries))).entries
        = (sortOnColumn column cmp (initialSortState entries)).entries.reverse := by
  have e1 : (sortOnColumn column cmp (initialSortState entries)).entries
      = entries.mergeSort (sortLe cmp column) := by
    rw [sortOnColumn_entries]
    simp [initialSortState]
  have a1 : (sortOnColumn column cmp (initialSortState entries)).ascendingCol
      = some column := by
    rw [sortOnColumn_ascendingCol]
    simp [initialSortState]
  have e2 : (sortOnColumn column cmp (sortOnColumn column cmp
        (initialSortState entries))).entries
      = (entries.mergeSort (sortLe cmp column)).mergeSort
          (sortLe (reverseSort cmp) column) := by
    rw [sortOnColumn_entries, a1, e1]
    simp
  have btrans : ∀ a b c : RowEntry,
      sortLe cmp column a b → sortLe cmp column b c → sortLe cmp column a c := by
    intro a b c h1 h2
    simp only [sortLe, decide_eq_true_eq] at h1 h2 ⊢
    exact htrans a b c h1 h2
  have btot : ∀ a b : RowEntry, sortLe cmp column a b || sortLe cmp column b a := by
    intro a b
    simp only [sortLe, Bool.or_eq_true, decide_eq_true_eq]
    exact htot a b
  have hs1b := List.sorted_mergeSort btrans btot entries
  have hs1p : (entries.mergeSort (sortLe cmp column)).Pairwise
      (fun a b => cmp column a.data b.data ≤ 0) := by
    refine hs1b.imp ?_
    intro a b h
    simpa [sortLe] using h
  have btrans2 : ∀ a b c : RowEntry,
      sortLe (reverseSort cmp) column a b → sortLe (reverseSort cmp) column b c →
        sortLe (reverseSort cmp) column a c := by
    intro a b c h1 h2
    simp only [sortLe, reverseSort, decide_eq_true_eq] at h1 h2 ⊢
    exact htrans c b a h2 h1
  have btot2 : ∀ a b : RowEntry,
      sortLe (reverseSort cmp) column a b || sortLe (reverseSort cmp) column b a := by
    intro a b
    simp only [sortLe, reverseSort, Bool.or_eq_true, decide_eq_true_eq]
    exact (htot b a).imp id id
  have hs2b := List.sorted_mergeSort btrans2 btot2
    (entries.mergeSort (sortLe cmp column))
  have hs2p : ((entries.mergeSort (sortLe cmp column)).mergeSort
        (sortLe (reverseSort cmp) column)).Pairwise
      (fun a b : RowEntry => cmp column b.data a.data ≤ 0) := by
    refine hs2b.imp ?_
    intro a b h
    simpa [sortLe, reverseSort] using h
  have hrev : ((entries.mergeSort (sortLe cmp column)).reverse).Pairwise
      (fun a b : RowEntry => cmp column b.data a.data ≤ 0) := by
    rw [List.pairwise_reverse]
    exact hs1p
  have hperm : ((entries.mergeSort (sortLe cmp column)).mergeSort
        (sortLe (reverseSort cmp) column)).Perm
      ((entries.mergeSort (sortLe cmp column)).reverse) :=
    (List.mergeSort_perm _ _).trans
      (List.reverse_perm (entries.mergeSort (sortLe cmp column))).symm
  have hmem : ∀ x ∈ (entries.mergeSort (sortLe cmp column)).mergeSort
      (sortLe (reverseSort cmp) column), x ∈ entries := by
    intro x hx
    exact List.mem_mergeSort.mp (List.mem_mergeSort.mp hx)
  have hanti2 : ∀ x ∈ (entries.mergeSort (sortLe cmp column)).mergeSort
        (sortLe (reverseSort cmp) column),
      ∀ y ∈ (entries.mergeSort (sortLe cmp column)).mergeSort
        (sortLe (reverseSort cmp) column),
      cmp column y.data x.data ≤ 0 → cmp column x.data y.data ≤ 0 → x = y := by
    intro x hx y hy hxy hyx
    exact hanti x (hmem x hx) y (hmem y hy) hyx hxy
  refine ⟨by rw [e1]; exact hs1p, ?_⟩
  rw [e2, e1]
  exact pairwise_perm_eq hperm hs2p hrev hanti2

/-- Two rows the `numberSort` comparator ties (same "v" value) that are
nevertheless distinct rows. -/
def tieA : RowEntry := ⟨[("v", vNum 1), ("id", vNum 1)], none⟩

/-- The second of the two tied rows. -/
def tieB : RowEntry := ⟨[("v", vNum 1), ("id", vNum 2)], none⟩

/-- A data set containing two tied rows. -/
def tieEntries : List RowEntry := [tieA, tieB]

/-- Counterexample to claim C3 as stated: on two rows whose "v" values the
comparator ties, both the first and the second `sortOnColumn` pass leave the
(stable) order `[tieA, tieB]` unchanged, so the second pass does not produce
the exact reverse of the first. -/
theorem sortOnColumn_twice_on_tied_rows_not_reversed :
    (sortOnColumn "v" numberSort (sortOnColumn "v" numberSort
        (initialSortState tieEntries))).entries
      ≠ (sortOnColumn "v" numberSort (initialSortState tieEntries)).entries.reverse := by
  have hAB : sortLe numberSort "v" tieA tieB = true := by decide
  have hABr : sortLe (reverseSort numberSort) "v" tieA tieB = true := by decide
  have hst1 : (sortOnColumn "v" numberSort (initialSortState tieEntries)).entries
      = [tieA, tieB] := by
    rw [sortOnColumn_entries]
    simp [initialSortState, tieEntries, List.mergeSort, List.splitInTwo,
      List.merge, hAB]
  have ha1 : (sortOnColumn "v" numberSort
        (initialSortState tieEntries)).ascendingCol = some "v" := by
    rw [sortOnColumn_ascendingCol]
    simp [initialSortState]
  have hst2 : (sortOnColumn "v" numberSort (sortOnColumn "v" numberSort
        (initialSortState tieEntries))).entries = [tieA, tieB] := by
    rw [sortOnColumn_entries, ha1, hst1]
    simp [List.mergeSort, List.splitInTwo, List.merge, hABr]
  rw [hst2, hst1]
  decide

/-- Two rows with distinct numeric "v" values, initially out of order. -/
def ordEntries : List RowEntry :=
  [⟨[("v", vNum 2)], none⟩, ⟨[("v", vNum 1)], none⟩]

/-- Witness for the amended claim C3: `numberSort` on two rows with distinct
values satisfies all three comparator hypotheses, and the double sort indeed
reverses. -/
theorem sortOnColumn_twice_reverses_witness :
    ((sortOnColumn "v" numberSort (initialSortState ordEntries)).entries.Pairwise
        (fun a b => numberSort "v" a.data b.data ≤ 0))
    ∧ (sortOnColumn "v" numberSort (sortOnColumn "v" numberSort
          (initialSortState ordEntries))).entries
        = (sortOnColumn "v" numberSort (initialSortState ordEntries)).entries.reverse :=
  sortOnColumn_twice_reverses numberSort "v" ordEntries
    (by
      intro a b c h1 h2
      simp only [numberSort] at h1 h2 ⊢
      omega)
    (by
      intro a b
      simp only [numberSort]
      omega)
    (by decide)

end Patterns
